import Mathlib

/-!
Shallow embedding of the restaurant-review scoring pipeline
(`f24_lab1/main.py`) and verification of its specification.

The embedded functions are:
* `fetch_restaurant_data` — corpus lookup (`fetch_restaurant_data` in the
  source).  The corpus file handle is modelled as `Except String (List String)`:
  `Except.error e` is a file that cannot be opened or read (the Python
  `except Exception as e` branch), `Except.ok lines` is the list of its lines.
  The returned pair is (the mapping built, the diagnostics printed).
* `calculate_overall_score` — score aggregation.  Python floats are modelled
  by `ℝ`; `math.sqrt` raising `ValueError` on a negative (integer) argument is
  modelled by `Option`.
* `classify` — keyword classification.  The source delegates this to an LLM
  prompt (`get_review_analyzer_agent_prompt`), so it is modelled from the
  spec's deterministic rule.
-/

/-! ### Corpus lookup (`fetch_restaurant_data`) -/

/-- Python `str.strip()` (restricted to ASCII whitespace): drop whitespace at
both ends of a character list. -/
def stripChars (s : List Char) : List Char :=
  (((s.dropWhile Char.isWhitespace).reverse).dropWhile Char.isWhitespace).reverse

/-- Python `line.strip()`. -/
def stripStr (s : String) : String :=
  ⟨stripChars s.data⟩

/-- Split a character list at the first occurrence of the two-character
delimiter `'.'` followed by `' '`; `none` when the delimiter does not occur.
This is Python `s.split('. ', 1)`, with `none` standing for the
single-element result (`len(parts) < 2`). -/
def splitDotSpace : List Char → Option (List Char × List Char)
  | [] => none
  | [_] => none
  | c :: d :: rest =>
    if c = '.' ∧ d = ' ' then some ([], rest)
    else (splitDotSpace (d :: rest)).map (fun p => (c :: p.1, p.2))

/-- `line.split('. ', 1)` on strings, keeping only the two-part case. -/
def splitFirstDotSpace (s : String) : Option (String × String) :=
  (splitDotSpace s.data).map (fun p => (⟨p.1⟩, ⟨p.2⟩))

/-- `leadsWith a b` is true when `a` is an initial segment of `b`. -/
def leadsWith : List Char → List Char → Bool
  | [], _ => true
  | _ :: _, [] => false
  | a :: as, b :: bs => a = b && leadsWith as bs

/-- `containsSeq needle hay` is Python `needle in hay` on strings: `needle`
occurs contiguously inside `hay`. -/
def containsSeq : List Char → List Char → Bool
  | needle, [] => leadsWith needle []
  | needle, c :: rest => leadsWith needle (c :: rest) || containsSeq needle rest

/-- Python `query.lower() in name.lower()` (ASCII lower-casing). -/
def substrCI (query name : String) : Bool :=
  containsSeq (query.data.map Char.toLower) (name.data.map Char.toLower)

/-- The Python dict update
`if k not in d: d[k] = []` followed by `d[k].append(v)`, on an ordered
association list (Python dicts preserve insertion order, new keys go last). -/
def addReview : List (String × List String) → String → String → List (String × List String)
  | [], k, v => [(k, [v])]
  | (k', vs) :: rest, k, v =>
    if k' = k then (k', vs ++ [v]) :: rest else (k', vs) :: addReview rest k v

/-- Key lookup in the ordered association list (Python `d[k]` / `k in d`). -/
def lookupKey (name : String) : List (String × List String) → Option (List String)
  | [] => none
  | (k, vs) :: rest => if k = name then some vs else lookupKey name rest

/-- The body of the `for line in file` loop of `fetch_restaurant_data`:
strip the line, split on the first `'. '`, and when the delimiter is present
and the lower-cased query occurs in the lower-cased candidate name, append the
review under the candidate name.  Malformed lines leave the dict unchanged. -/
def processLine (restaurant_name : String) (acc : List (String × List String))
    (line : String) : List (String × List String) :=
  match splitFirstDotSpace (stripStr line) with
  | some (current_restaurant, review) =>
    if substrCI restaurant_name current_restaurant then
      addReview acc current_restaurant review
    else acc
  | none => acc

/-- `fetch_restaurant_data` from `f24_lab1/main.py`.  The first component of
the result is the returned dict, the second is the list of diagnostics
printed (the `except` branch prints one message; the loop prints nothing). -/
def fetch_restaurant_data (restaurant_name : String)
    (corpus : Except String (List String)) :
    List (String × List String) × List String :=
  match corpus with
  | Except.error e => ([], ["Error reading restaurant data: " ++ e])
  | Except.ok lines => (lines.foldl (processLine restaurant_name) [], [])

/-- Follows the spec's words (§4.1): the reviews of the lines whose candidate
name is `name` and whose lower-cased query is a substring of the lower-cased
candidate name, in corpus order. -/
def specMatchingReviews (query name : String) (lines : List String) : List String :=
  lines.filterMap (fun line =>
    match splitFirstDotSpace (stripStr line) with
    | some (n, review) => if n = name ∧ substrCI query n then some review else none
    | none => none)

/-! ### Score aggregation (`calculate_overall_score`) -/

/-- Python `round(x, 3)` modelled over `ℝ` (the tie-breaking direction never
matters for the properties proved here). -/
noncomputable def roundTo3 (x : ℝ) : ℝ :=
  ((round (x * 1000) : ℤ) : ℝ) / 1000

/-- The value of one loop iteration of `calculate_overall_score`:
`math.sqrt(food**2 * service) * (1 / (N * math.sqrt(125))) * 10`. -/
noncomputable def termVal (N : ℕ) (f s : ℤ) : ℝ :=
  Real.sqrt ((f : ℝ) ^ 2 * (s : ℝ)) * (1 / ((N : ℝ) * Real.sqrt 125)) * 10

/-- One loop iteration.  `math.sqrt` raises `ValueError` exactly when its
(integer) argument `f**2 * s` is negative; that is modelled by `none`. -/
noncomputable def scoreTerm (N : ℕ) (f s : ℤ) : Option ℝ :=
  if f ^ 2 * s < 0 then none else some (termVal N f s)

/-- The accumulation loop of `calculate_overall_score` over the paired score
lists (the guard below ensures both lists have length `N`, so pairing the
lists is the indexed `for i in range(N)` loop).  A `ValueError` anywhere
aborts the whole call: `none`. -/
noncomputable def sumTerms (N : ℕ) : List (ℤ × ℤ) → Option ℝ
  | [] => some 0
  | p :: rest =>
    match scoreTerm N p.1 p.2, sumTerms N rest with
    | some t, some r => some (t + r)
    | _, _ => none

/-- `calculate_overall_score` from `f24_lab1/main.py`.  The returned Python
dict is an association list; `none` models an uncaught `ValueError`. -/
noncomputable def calculate_overall_score (restaurant_name : String)
    (food_scores customer_service_scores : List ℤ) : Option (List (String × ℝ)) :=
  if food_scores.length = 0 ∨ customer_service_scores.length = 0 ∨
      food_scores.length ≠ customer_service_scores.length then
    some [(restaurant_name, 0)]
  else
    match sumTerms food_scores.length (food_scores.zip customer_service_scores) with
    | some total => some [(restaurant_name, roundTo3 total)]
    | none => none

/-- Follows the spec's words (§4.3): the aggregate before rounding is the sum
over `i ∈ [0, N)` of `sqrt(food_scores[i]^2 * service_scores[i]) *
(1 / (N * sqrt(125))) * 10`. -/
noncomputable def specAggregateSum (food_scores customer_service_scores : List ℤ) : ℝ :=
  Finset.sum (Finset.range food_scores.length) fun i =>
    termVal food_scores.length (food_scores.getD i 0) (customer_service_scores.getD i 0)

/-! ### Review classification (`classify`)

The source implements classification as a natural-language prompt for an LLM
(`get_review_analyzer_agent_prompt`); there is no deterministic classifier in
the repository.  The definitions below are modelled from the spec. -/

/-- Modelled from the spec: the classification error taxonomy (§7); the
deterministic classifier itself is missing from the source. -/
inductive ClassifyError where
  | MalformedReview
deriving DecidableEq

/-- Modelled from the spec: the fixed 15-word keyword vocabulary of §4.2,
mapping a (lower-case) word to its 1–5 score; the deterministic classifier
itself is missing from the source. -/
def keywordScore (w : String) : Option ℤ :=
  if w = "awful" ∨ w = "horrible" ∨ w = "disgusting" then some 1
  else if w = "bad" ∨ w = "unpleasant" ∨ w = "offensive" then some 2
  else if w = "average" ∨ w = "uninspiring" ∨ w = "forgettable" then some 3
  else if w = "good" ∨ w = "enjoyable" ∨ w = "satisfying" then some 4
  else if w = "awesome" ∨ w = "incredible" ∨ w = "amazing" then some 5
  else none

/-- Split a character list into its maximal alphabetic runs (the words, for
case-insensitive whole-word matching); `acc` holds the current run reversed. -/
def splitWordsAux : List Char → List Char → List (List Char)
  | [], acc => if acc = [] then [] else [acc.reverse]
  | c :: rest, acc =>
    if c.isAlpha then splitWordsAux rest (c :: acc)
    else if acc = [] then splitWordsAux rest []
    else acc.reverse :: splitWordsAux rest []

/-- Modelled from the spec: the words of a review text, lower-cased, in
reading order; the deterministic classifier itself is missing from the
source. -/
def wordsOf (s : String) : List String :=
  (splitWordsAux (s.data.map Char.toLower) []).map (fun l => ⟨l⟩)

/-- Modelled from the spec (§4.2): the scores of all vocabulary keyword
occurrences of a review text, in order of appearance; the deterministic
classifier itself is missing from the source. -/
def keywordScores (text : String) : List ℤ :=
  (wordsOf text).filterMap keywordScore

/-- Modelled from the spec (§4.2): scan the review text for vocabulary
keyword occurrences in order of appearance; with exactly two occurrences the
first is the food score and the second the service score, otherwise the
review is `MalformedReview`.  The deterministic classifier itself is missing
from the source (it is delegated to an LLM prompt). -/
def classify (text : String) : Except ClassifyError (ℤ × ℤ) :=
  match keywordScores text with
  | [f, s] => Except.ok (f, s)
  | _ => Except.error ClassifyError.MalformedReview

/-- The review text documented in `get_review_analyzer_agent_prompt`. -/
def mcdonaldsReview : String :=
  "The food at McDonald\x27s was average, but the customer service was unpleasant. The uninspiring menu options were served quickly, but the staff seemed disinterested and unhelpful."

/-- A two-line corpus for the spec's substring-matching example. -/
def subwayLines : List String :=
  ["Subway. The sandwiches were good.",
   "Subway Sandwiches. The service was awesome."]

/-- How one key's reviews grow across a stretch of the corpus loop: with no
prior entry the matching reviews (if any) become the entry, with a prior
entry they are appended to it. -/
def combineOpt (o : Option (List String)) (ms : List String) : Option (List String) :=
  match o with
  | none => if ms = [] then none else some ms
  | some vs => some (vs ++ ms)

/-! ### Lemmas about the corpus lookup -/

theorem lookupKey_addReview (d : List (String × List String)) (k v name : String) :
    lookupKey name (addReview d k v) =
      if k = name then some (((lookupKey name d).getD []) ++ [v])
      else lookupKey name d := by
  induction d with
  | nil =>
    by_cases h : k = name <;> simp [addReview, lookupKey, h]
  | cons hd rest ih =>
    obtain ⟨k', vs⟩ := hd
    by_cases h1 : k' = k
    · subst h1
      by_cases h2 : k' = name <;> simp [addReview, lookupKey, h2]
    · by_cases h2 : k' = name
      · subst h2
        have hk : ¬ k = k' := fun h => h1 h.symm
        simp [addReview, lookupKey, h1, hk]
      · simp [addReview, lookupKey, h1, h2, ih]

theorem lookupKey_foldl (q name : String) (lines : List String) :
    ∀ acc, lookupKey name (List.foldl (processLine q) acc lines) =
      combineOpt (lookupKey name acc) (specMatchingReviews q name lines) := by
  induction lines with
  | nil =>
    intro acc
    cases h : lookupKey name acc <;> simp [specMatchingReviews, combineOpt, h]
  | cons l rest ih =>
    intro acc
    simp only [List.foldl_cons]
    rw [ih]
    cases h : splitFirstDotSpace (stripStr l) with
    | none =>
      simp [processLine, specMatchingReviews, List.filterMap_cons, h]
    | some p =>
      obtain ⟨n, review⟩ := p
      by_cases hm : substrCI q n
      · by_cases hn : n = name
        · subst hn
          simp only [processLine, h, hm, if_true, specMatchingReviews,
            List.filterMap_cons, hm, and_true, if_pos rfl]
          rw [lookupKey_addReview]
          simp only [if_pos rfl]
          cases hacc : lookupKey n acc <;> simp [combineOpt, hacc]
        · have hcond : ¬ (n = name ∧ substrCI q n = true) := fun hc => hn hc.1
          simp [processLine, h, hm, specMatchingReviews, List.filterMap_cons, hcond,
            lookupKey_addReview, hn]
      · have hcond : ¬ (n = name ∧ substrCI q n = true) := by
          intro hc
          exact absurd hc.2 (by simpa using hm)
        simp [processLine, h, hm, specMatchingReviews, List.filterMap_cons, hcond]

theorem foldl_processLine_filter (name : String) (lines : List String) :
    ∀ acc, List.foldl (processLine name) acc lines =
      List.foldl (processLine name) acc
        (lines.filter (fun l => (splitFirstDotSpace (stripStr l)).isSome)) := by
  induction lines with
  | nil => intro acc; rfl
  | cons l rest ih =>
    intro acc
    cases h : splitFirstDotSpace (stripStr l) with
    | none => simp [List.filter_cons, h, processLine, ih]
    | some p => simp [List.filter_cons, h, processLine, ih]

/-- Claim C4: for every corpus and query, `fetch_restaurant_data` splits each
line on the first period+space into (candidate name, review text) and stores
the review text, in corpus order, under the candidate name (exact casing)
exactly when the lower-cased query is a substring of the lower-cased
candidate name; in particular the query "subway" matches both "Subway" and
"Subway Sandwiches". -/
theorem fetch_restaurant_data_characterization :
    (∀ (query name : String) (lines : List String),
      lookupKey name (fetch_restaurant_data query (Except.ok lines)).1 =
        if specMatchingReviews query name lines = [] then none
        else some (specMatchingReviews query name lines)) ∧
    (fetch_restaurant_data "subway" (Except.ok subwayLines)).1 =
      [("Subway", ["The sandwiches were good."]),
       ("Subway Sandwiches", ["The service was awesome."])] := by
  constructor
  · intro q name lines
    show lookupKey name (List.foldl (processLine q) [] lines) = _
    rw [lookupKey_foldl]
    rfl
  · decide

/-- Claim C5: when the corpus source cannot be opened or read (the
`Except.error` case of the modelled file handle), `fetch_restaurant_data`
does not propagate the exception: it returns the empty mapping together with
one printed diagnostic naming the failure reason. -/
theorem fetch_restaurant_data_error_contract (name e : String) :
    fetch_restaurant_data name (Except.error e) =
      ([], ["Error reading restaurant data: " ++ e]) := rfl

/-- Claim C6, counterexample: on a corpus with a line lacking the
period+space delimiter, `fetch_restaurant_data` prints no diagnostic at all
(the printed-diagnostics component of the result is empty), even though the
remaining well-formed line is processed normally — refuting the claim that a
diagnostic is reported for malformed lines. -/
theorem fetch_restaurant_data_malformed_no_diagnostic :
    (fetch_restaurant_data "subway"
        (Except.ok ["no delimiter here", "Subway. The food was good."])).2 = [] ∧
    (fetch_restaurant_data "subway"
        (Except.ok ["no delimiter here", "Subway. The food was good."])).1 =
      [("Subway", ["The food was good."])] := by decide

/-- Claim C6, amended: `fetch_restaurant_data` never crashes on corpus lines
lacking the period+space delimiter: it silently skips them (reporting no
diagnostic) and continues processing the remaining lines, which contribute
to the result exactly as they would without the malformed lines. -/
theorem fetch_restaurant_data_skips_malformed (name : String) (lines : List String) :
    (fetch_restaurant_data name (Except.ok lines)).1 =
      (fetch_restaurant_data name (Except.ok (lines.filter
        (fun l => (splitFirstDotSpace (stripStr l)).isSome)))).1 ∧
    (fetch_restaurant_data name (Except.ok lines)).2 = [] := by
  exact ⟨foldl_processLine_filter name lines [], rfl⟩

/-! ### Theorems about the classifier -/

/-- Claim C8: a review text whose number of recognized vocabulary keyword
occurrences is not exactly two is surfaced as `MalformedReview`; no score
pair is produced silently. -/
theorem classify_malformed (text : String)
    (h : (keywordScores text).length ≠ 2) :
    classify text = Except.error ClassifyError.MalformedReview := by
  rcases hm : keywordScores text with _ | ⟨a, _ | ⟨b, _ | ⟨c, t⟩⟩⟩ <;>
    simp_all [classify]

/-- Witness for claim C8: the review text documented in the source prompt
contains three vocabulary keyword occurrences, so it is malformed. -/
theorem classify_malformed_witness :
    (keywordScores mcdonaldsReview).length ≠ 2 ∧
      classify mcdonaldsReview = Except.error ClassifyError.MalformedReview :=
  ⟨by decide, classify_malformed mcdonaldsReview (by decide)⟩

/-- Claim C7, counterexample: the documented review from the source prompt is
not classified as food 3 / service 2 — it contains three vocabulary keyword
occurrences ("average", "unpleasant", "uninspiring"), so the exactly-two rule
of the spec reports it as `MalformedReview` instead. -/
theorem classify_example_not_three_two :
    classify mcdonaldsReview ≠ Except.ok ((3 : ℤ), (2 : ℤ)) := by
  simp [show classify mcdonaldsReview = Except.error ClassifyError.MalformedReview from rfl]

/-- Claim C7, amended: for every review text containing exactly two
vocabulary keyword occurrences, classification scans the occurrences in
order of appearance and assigns the first score to food and the second to
service; the documented McDonald's review, however, contains three keyword
occurrences (scores 3, 2, 3 in reading order) and is therefore reported as
`MalformedReview` rather than classified as food 3 / service 2. -/
theorem classify_first_food_second_service :
    (∀ (text : String) (f s : ℤ), keywordScores text = [f, s] →
        classify text = Except.ok (f, s)) ∧
      keywordScores mcdonaldsReview = [3, 2, 3] ∧
      classify mcdonaldsReview = Except.error ClassifyError.MalformedReview := by
  refine ⟨?_, by decide, rfl⟩
  intro text f s h
  unfold classify
  rw [h]

/-- Witness for claim C7 (amended): a review with exactly two keyword
occurrences, "good" then "awful", classifies as food 4 / service 1. -/
theorem classify_first_food_second_service_witness :
    classify "The food was good but the service was awful." =
      Except.ok ((4 : ℤ), (1 : ℤ)) :=
  classify_first_food_second_service.1 _ 4 1 (by decide)

/-! ### Lemmas about the aggregator -/

theorem sum_map_zip_eq_range (g : ℤ → ℤ → ℝ) :
    ∀ (fs ss : List ℤ), fs.length = ss.length →
      ((fs.zip ss).map (fun p => g p.1 p.2)).sum =
        Finset.sum (Finset.range fs.length) (fun i => g (fs.getD i 0) (ss.getD i 0)) := by
  intro fs
  induction fs with
  | nil => intro ss _; simp
  | cons f fs ih =>
    intro ss h
    cases ss with
    | nil => simp at h
    | cons s ss =>
      simp only [List.zip_cons_cons, List.map_cons, List.sum_cons, List.length_cons]
      rw [Finset.sum_range_succ']
      simp only [List.getD_cons_succ, List.getD_cons_zero]
      rw [ih ss (by simpa using h)]
      ring

theorem sumTerms_eq_some (N : ℕ) :
    ∀ l : List (ℤ × ℤ), (∀ p ∈ l, 0 ≤ p.1 ^ 2 * p.2) →
      sumTerms N l = some ((l.map (fun p => termVal N p.1 p.2)).sum) := by
  intro l
  induction l with
  | nil => intro _; simp [sumTerms]
  | cons p rest ih =>
    intro h
    have hp : ¬ (p.1 ^ 2 * p.2 < 0) := not_lt.mpr (h p (List.mem_cons_self p rest))
    have hrest := ih (fun q hq => h q (List.mem_cons_of_mem p hq))
    simp [sumTerms, scoreTerm, hp, hrest]

theorem calc_eq_of_valid (name : String) (fs ss : List ℤ)
    (hlen : fs.length = ss.length) (hne : fs.length ≠ 0)
    (hss : ∀ x ∈ ss, 0 ≤ x) :
    calculate_overall_score name fs ss =
      some [(name, roundTo3 (specAggregateSum fs ss))] := by
  have hguard : ¬ (fs.length = 0 ∨ ss.length = 0 ∨ fs.length ≠ ss.length) := by
    push_neg
    refine ⟨hne, ?_, hlen⟩
    omega
  have hzip : ∀ p ∈ fs.zip ss, 0 ≤ p.1 ^ 2 * p.2 := by
    intro p hp
    obtain ⟨a, b⟩ := p
    exact mul_nonneg (sq_nonneg a) (hss b (List.of_mem_zip hp).2)
  unfold calculate_overall_score
  rw [if_neg hguard, sumTerms_eq_some fs.length (fs.zip ss) hzip,
    sum_map_zip_eq_range (termVal fs.length) fs ss hlen]
  rfl

theorem termVal_nonneg (N : ℕ) (f s : ℤ) : 0 ≤ termVal N f s := by
  unfold termVal
  positivity

theorem termVal_le (N : ℕ) (hN : N ≠ 0) (f s : ℤ)
    (hf1 : 1 ≤ f) (hf5 : f ≤ 5) (hs1 : 1 ≤ s) (hs5 : s ≤ 5) :
    termVal N f s ≤ 10 / (N : ℝ) := by
  unfold termVal
  have harg : (f : ℝ) ^ 2 * (s : ℝ) ≤ 125 := by
    have hf : (1 : ℝ) ≤ (f : ℝ) := by exact_mod_cast hf1
    have hf' : (f : ℝ) ≤ 5 := by exact_mod_cast hf5
    have hs : (s : ℝ) ≤ 5 := by exact_mod_cast hs5
    have hs0 : (0 : ℝ) ≤ (s : ℝ) := by exact_mod_cast le_trans zero_le_one hs1
    nlinarith
  have hsq : Real.sqrt ((f : ℝ) ^ 2 * (s : ℝ)) ≤ Real.sqrt 125 := Real.sqrt_le_sqrt harg
  have h125 : (0 : ℝ) < Real.sqrt 125 := Real.sqrt_pos.mpr (by norm_num)
  have hNpos : (0 : ℝ) < (N : ℝ) := by exact_mod_cast Nat.pos_of_ne_zero hN
  have hc : (0 : ℝ) ≤ 1 / ((N : ℝ) * Real.sqrt 125) := by positivity
  calc Real.sqrt ((f : ℝ) ^ 2 * (s : ℝ)) * (1 / ((N : ℝ) * Real.sqrt 125)) * 10
      ≤ Real.sqrt 125 * (1 / ((N : ℝ) * Real.sqrt 125)) * 10 := by
        exact mul_le_mul_of_nonneg_right
          (mul_le_mul_of_nonneg_right hsq hc) (by norm_num)
    _ = 10 / (N : ℝ) := by
        field_simp
        ring

theorem specAggregateSum_bounds (fs ss : List ℤ)
    (hlen : fs.length = ss.length) (hne : fs.length ≠ 0)
    (hfs : ∀ x ∈ fs, 1 ≤ x ∧ x ≤ 5) (hss : ∀ x ∈ ss, 1 ≤ x ∧ x ≤ 5) :
    0 ≤ specAggregateSum fs ss ∧ specAggregateSum fs ss ≤ 10 := by
  unfold specAggregateSum
  constructor
  · exact Finset.sum_nonneg (fun i _ => termVal_nonneg _ _ _)
  · have hNpos : (0 : ℝ) < (fs.length : ℝ) := by
      exact_mod_cast Nat.pos_of_ne_zero hne
    calc Finset.sum (Finset.range fs.length)
          (fun i => termVal fs.length (fs.getD i 0) (ss.getD i 0))
        ≤ Finset.sum (Finset.range fs.length) (fun _ => 10 / (fs.length : ℝ)) := by
          apply Finset.sum_le_sum
          intro i hi
          have hif : i < fs.length := Finset.mem_range.mp hi
          have his : i < ss.length := by omega
          have hmf : fs.getD i 0 ∈ fs := by
            rw [List.getD_eq_getElem fs 0 hif]; exact List.getElem_mem hif
          have hms : ss.getD i 0 ∈ ss := by
            rw [List.getD_eq_getElem ss 0 his]; exact List.getElem_mem his
          exact termVal_le fs.length hne _ _ (hfs _ hmf).1 (hfs _ hmf).2
            (hss _ hms).1 (hss _ hms).2
      _ = 10 := by
          rw [Finset.sum_const, Finset.card_range, nsmul_eq_mul]
          field_simp

theorem roundTo3_bounds (x : ℝ) (h0 : 0 ≤ x) (h10 : x ≤ 10) :
    0 ≤ roundTo3 x ∧ roundTo3 x ≤ 10 := by
  unfold roundTo3
  have hlo : (0 : ℤ) ≤ round (x * 1000) := by
    rw [round_eq]
    exact Int.floor_nonneg.mpr (by linarith)
  have hhi : round (x * 1000) ≤ 10000 := by
    rw [round_eq]
    have : ⌊x * 1000 + 1 / 2⌋ < 10001 := by
      rw [Int.floor_lt]; push_cast; linarith
    omega
  constructor
  · apply div_nonneg _ (by norm_num)
    exact_mod_cast hlo
  · rw [div_le_iff₀ (by norm_num : (0:ℝ) < 1000)]
    calc ((round (x * 1000) : ℤ) : ℝ) ≤ ((10000 : ℤ) : ℝ) := by exact_mod_cast hhi
      _ = 10 * 1000 := by norm_num

theorem specAggregateSum_five : specAggregateSum [5] [5] = 10 := by
  have h125 : Real.sqrt 125 ≠ 0 := by
    rw [Real.sqrt_ne_zero']
    norm_num
  unfold specAggregateSum termVal
  norm_num [Finset.sum_range_one]

theorem roundTo3_ten : roundTo3 10 = 10 := by
  unfold roundTo3
  have h : (10 : ℝ) * 1000 = ((10000 : ℤ) : ℝ) := by norm_num
  rw [h, round_intCast]
  norm_num

theorem calc_X55_eq : calculate_overall_score "X" [5] [5] = some [("X", (10 : ℝ))] := by
  rw [calc_eq_of_valid "X" [5] [5] rfl (by decide) (by decide),
    specAggregateSum_five, roundTo3_ten]

/-! ### Theorems about the aggregator -/

/-- Claim C1: for every restaurant name and every pair of integer score lists
of equal non-zero length `N` with each element in `[1, 5]`,
`calculate_overall_score` maps the given name to
`round(Σ i < N, sqrt(food[i]^2 * service[i]) * (1 / (N * sqrt 125)) * 10, 3)`
(and in particular the worked example at `[5], [5]` yields `10`, see the
witness). -/
theorem calculate_overall_score_formula (name : String) (fs ss : List ℤ)
    (hlen : fs.length = ss.length) (hne : fs.length ≠ 0)
    (hfs : ∀ x ∈ fs, 1 ≤ x ∧ x ≤ 5) (hss : ∀ x ∈ ss, 1 ≤ x ∧ x ≤ 5) :
    calculate_overall_score name fs ss =
      some [(name, roundTo3 (specAggregateSum fs ss))] :=
  calc_eq_of_valid name fs ss hlen hne
    (fun x hx => le_trans zero_le_one (hss x hx).1)

/-- Witness for claim C1: `aggregate("X", [5], [5])` yields `{"X": 10.0}`. -/
theorem calculate_overall_score_formula_witness :
    calculate_overall_score "X" [5] [5] = some [("X", (10 : ℝ))] := by
  rw [calculate_overall_score_formula "X" [5] [5] rfl (by decide) (by decide)
    (by decide), specAggregateSum_five, roundTo3_ten]

/-- Claim C2: whenever either score list is empty or the two lists have
different lengths, `calculate_overall_score` returns exactly
`{restaurant_name: 0.000}` without raising. -/
theorem calculate_overall_score_degenerate (name : String) (fs ss : List ℤ)
    (h : fs.length = 0 ∨ ss.length = 0 ∨ fs.length ≠ ss.length) :
    calculate_overall_score name fs ss = some [(name, 0)] := by
  unfold calculate_overall_score
  rw [if_pos h]

/-- Witness for claim C2: both boundary examples of the spec. -/
theorem calculate_overall_score_degenerate_witness :
    calculate_overall_score "X" [] [] = some [("X", 0)] ∧
      calculate_overall_score "X" [1, 2] [1] = some [("X", 0)] :=
  ⟨calculate_overall_score_degenerate "X" [] [] (Or.inl rfl),
   calculate_overall_score_degenerate "X" [1, 2] [1] (by decide)⟩

/-- Claim C3: for equal-length non-empty score lists with every element in
`[1, 5]`, the value `calculate_overall_score` returns lies in `[0, 10]`. -/
theorem calculate_overall_score_bounded (name : String) (fs ss : List ℤ)
    (hlen : fs.length = ss.length) (hne : fs.length ≠ 0)
    (hfs : ∀ x ∈ fs, 1 ≤ x ∧ x ≤ 5) (hss : ∀ x ∈ ss, 1 ≤ x ∧ x ≤ 5)
    (v : ℝ) (hv : calculate_overall_score name fs ss = some [(name, v)]) :
    0 ≤ v ∧ v ≤ 10 := by
  rw [calc_eq_of_valid name fs ss hlen hne
    (fun x hx => le_trans zero_le_one (hss x hx).1)] at hv
  have hv' : roundTo3 (specAggregateSum fs ss) = v := by
    simpa using hv
  obtain ⟨hb0, hb10⟩ := specAggregateSum_bounds fs ss hlen hne hfs hss
  rw [← hv']
  exact roundTo3_bounds _ hb0 hb10

/-- Witness for claim C3: the value at `[5], [5]` (which is `10`) lies in
`[0, 10]`. -/
theorem calculate_overall_score_bounded_witness :
    0 ≤ (10 : ℝ) ∧ (10 : ℝ) ≤ 10 :=
  calculate_overall_score_bounded "X" [5] [5] rfl (by decide) (by decide)
    (by decide) 10 calc_X55_eq

/-- Claim C9: whenever `calculate_overall_score` returns a mapping (also in
the degenerate cases), that mapping has exactly one key, the
`restaurant_name` argument, unchanged. -/
theorem calculate_overall_score_single_key (name : String) (fs ss : List ℤ)
    (r : List (String × ℝ)) (h : calculate_overall_score name fs ss = some r) :
    r.map Prod.fst = [name] := by
  unfold calculate_overall_score at h
  by_cases hg : fs.length = 0 ∨ ss.length = 0 ∨ fs.length ≠ ss.length
  · rw [if_pos hg] at h
    obtain rfl : [(name, (0 : ℝ))] = r := by simpa using h
    rfl
  · rw [if_neg hg] at h
    rcases hsum : sumTerms fs.length (fs.zip ss) with _ | total <;> rw [hsum] at h
    · simp at h
    · obtain rfl : [(name, roundTo3 total)] = r := by simpa using h
      rfl

/-- Witness for claim C9: the degenerate call keeps its single key "X". -/
theorem calculate_overall_score_single_key_witness :
    ([("X", (0 : ℝ))] : List (String × ℝ)).map Prod.fst = ["X"] :=
  calculate_overall_score_single_key "X" [] [] [("X", 0)]
    (by simp [calculate_overall_score])

/-- Claim C10: with every food and service score in `[1, 5]` (so every
`sqrt` argument `f^2 * s` is non-negative) the math-domain-error branch is
unreachable and `calculate_overall_score` always returns a value; with a
negative service score the computation is undefined (an uncaught
`ValueError`, modelled as `none`), e.g. at `("X", [1], [-1])`. -/
theorem calculate_overall_score_sqrt_safety :
    (∀ (name : String) (fs ss : List ℤ),
        (∀ x ∈ fs, 1 ≤ x ∧ x ≤ 5) → (∀ x ∈ ss, 1 ≤ x ∧ x ≤ 5) →
        (calculate_overall_score name fs ss).isSome) ∧
      calculate_overall_score "X" [1] [-1] = none := by
  constructor
  · intro name fs ss hfs hss
    by_cases hg : fs.length = 0 ∨ ss.length = 0 ∨ fs.length ≠ ss.length
    · unfold calculate_overall_score
      rw [if_pos hg]
      rfl
    · push_neg at hg
      rw [calc_eq_of_valid name fs ss hg.2.2 hg.1
        (fun x hx => le_trans zero_le_one (hss x hx).1)]
      rfl
  · unfold calculate_overall_score
    rw [if_neg (by norm_num)]
    norm_num [sumTerms, scoreTerm]

/-- Witness for claim C10: a valid one-review input returns a value. -/
theorem calculate_overall_score_sqrt_safety_witness :
    (calculate_overall_score "Y" [2] [3]).isSome = true :=
  calculate_overall_score_sqrt_safety.1 "Y" [2] [3] (by decide) (by decide)
